import Mathlib

/-!
# Verification of the `keyfunc` JWKS client cache

This file gives a shallow embedding, in Lean 4, of the pure core of the
`keyfunc` Go repository (a JSON Web Key Set client cache used as the key
resolution callback of JWT parsing libraries), and proves or refutes the
claims of its natural-language specification.

The embedding covers:

* Go's `base64.RawURLEncoding.DecodeString` (no padding accepted);
* the per-key decoders `jsonWebKey.RSA`, `jsonWebKey.Oct`, `jsonWebKey.EdDSA`
  (from `src/given_test.go`, `src/unnamed/part_001`, `src/eddsa.go`) and a
  spec-modelled `jsonWebKey.ECDSA` (the `ecdsa.go` source file is absent
  from the snapshot, only its callers and tests are present);
* `NewJSON` (from `src/jwks.go`), building a `kid -> key` map while silently
  skipping undecodable entries;
* `JWKS.refresh` (from `src/get.go`), with the unchanged-payload
  short-circuit and the given-key merge;
* `keyfunc.Keyfunc` (from `src/keyfunc.go`), the public resolver with its
  `alg` check and `use` whitelist;
* `JWKS.getKey` (both versions in `src/jwks.go`), the kid lookup that may
  trigger an unknown-kid refresh;
* the refresh coordinator `JWKS.backgroundRefresh` (from `src/get.go`),
  modelled as a small-step transition system (the `refreshMux` mutex
  serialises the handler body and the deferred goroutine's refresh, which
  justifies treating each locked region as one atomic step; context
  cancellation merely truncates a trace, so safety statements over all
  reachable states cover cancelled runs as well).

Go maps are modelled as functions `String → Option _`; byte slices as
`List Nat` (each entry < 256); machine integer conversions carry explicit
`% 2 ^ 64` reductions.
-/

namespace KeyfuncProof

/-! ## Bytes and base64url (Go `encoding/base64`, `RawURLEncoding`)

`base64.RawURLEncoding` uses the URL-safe alphabet `A-Z a-z 0-9 - _`,
accepts no padding character, rejects any input whose length is ≡ 1 mod 4,
and (in its default, non-strict mode) ignores unused trailing bits of the
final group. `DecodeString` fails on any character outside the alphabet,
in particular on `=`. -/

/-- The value of one base64url alphabet character, `none` for any character
outside the alphabet (including the padding character `=`). -/
def b64Val (c : Char) : Option Nat :=
  let n := c.toNat
  if 65 ≤ n ∧ n ≤ 90 then some (n - 65)        -- A-Z
  else if 97 ≤ n ∧ n ≤ 122 then some (n - 97 + 26)  -- a-z
  else if 48 ≤ n ∧ n ≤ 57 then some (n - 48 + 52)   -- 0-9
  else if n = 45 then some 62                   -- -
  else if n = 95 then some 63                   -- _
  else none

/-- Decode a list of 6-bit values (one base64url group of 2, 3 or 4 chars,
then recursively the rest) into bytes, mirroring Go's group logic:
4 chars become 3 bytes, a final group of 2 chars becomes 1 byte and of
3 chars becomes 2 bytes; a final single char is an error. -/
def b64Groups : List Nat → Option (List Nat)
  | [] => some []
  | [_] => none
  | [v0, v1] => some [(v0 * 4 + v1 / 16) % 256]
  | [v0, v1, v2] => some [(v0 * 4 + v1 / 16) % 256, (v1 % 16 * 16 + v2 / 4) % 256]
  | v0 :: v1 :: v2 :: v3 :: rest =>
    match b64Groups rest with
    | none => none
    | some bs =>
      some ((v0 * 4 + v1 / 16) % 256 :: (v1 % 16 * 16 + v2 / 4) % 256 ::
            (v2 % 4 * 64 + v3) % 256 :: bs)

/-- Map every character to its alphabet value; fail on the first character
outside the base64url alphabet. -/
def b64Vals : List Char → Option (List Nat)
  | [] => some []
  | c :: cs =>
    match b64Val c, b64Vals cs with
    | some v, some vs => some (v :: vs)
    | _, _ => none

/-- Model of Go's `base64.RawURLEncoding.DecodeString`: look up each
character in the URL-safe alphabet (rejecting `=` and every other
non-alphabet character) and regroup the 6-bit values into bytes. -/
def rawURLDecode (s : String) : Option (List Nat) :=
  match b64Vals s.data with
  | none => none
  | some vs => b64Groups vs

/-- Big-endian unsigned integer of a byte string, as Go's
`big.NewInt(0).SetBytes`. -/
def bytesBE (bs : List Nat) : Nat :=
  bs.foldl (fun a b => a * 256 + b) 0

/-- Go's `big.Int.Uint64` on a non-negative value: the low 64 bits. -/
def goUint64 (v : Nat) : Nat := v % 2 ^ 64

/-- Go's `int(u)` conversion of a `uint64` on a 64-bit target:
reinterpret the low 64 bits as a signed two's-complement value. -/
def goIntOfUint64 (u : Nat) : Int :=
  if u < 2 ^ 63 then (u : Int) else (u : Int) - 2 ^ 64

/-! ## Raw JWK entries and the per-key decoders

`jsonWebKey` is the raw (base64url string) form of one key, with the JSON
field names `crv`, `e`, `k`, `kid`, `n`, `kty`, `x`, `y` (Go struct field
names kept). Absent JSON fields decode to the empty string in Go. -/

/-- A raw JWK entry, as the Go struct `jsonWebKey` of `src/jwks.go`. -/
structure JsonWebKey where
  Curve : String := ""
  Exponent : String := ""
  K : String := ""
  ID : String := ""
  Modulus : String := ""
  Kty : String := ""  -- the Go field is named `Type`, a reserved word here
  X : String := ""
  Y : String := ""
deriving DecidableEq, Repr

/-- A decoded RSA public key: Go's `rsa.PublicKey` with `N : *big.Int`
and `E : int` (64-bit machine int). -/
structure RsaPublicKey where
  N : Nat
  E : Int
deriving DecidableEq, Repr

/-- A decoded ECDSA public key: named curve plus affine coordinates. -/
structure EcdsaPublicKey where
  Curve : String
  X : Nat
  Y : Nat
deriving DecidableEq, Repr

/-- The decoded key material stored in the `kid -> key` map
(`map[string]interface{}` in Go, holding one of the four key kinds). -/
inductive KeyInter where
  | ec (pub : EcdsaPublicKey)
  | okp (pub : List Nat)
  | oct (bytes : List Nat)
  | rsa (pub : RsaPublicKey)
deriving DecidableEq, Repr

/-- Errors of the per-key decoders. -/
inductive DecodeErr where
  | missingAssets
  | badBase64
  | unsupportedCurve
  | invalidKey
deriving DecidableEq, Repr

/-- `jsonWebKey.RSA` from `src/given_test.go` (lines 352-387): require
non-empty `e` and `n`, base64url-decode both with `RawURLEncoding`, take
the modulus as a big integer and the exponent as
`int(big.NewInt(0).SetBytes(exponent).Uint64())`. -/
def JsonWebKey.RSA (j : JsonWebKey) : Except DecodeErr RsaPublicKey :=
  if j.Exponent = "" ∨ j.Modulus = "" then .error .missingAssets
  else
    match rawURLDecode j.Exponent with
    | none => .error .badBase64
    | some expBytes =>
      match rawURLDecode j.Modulus with
      | none => .error .badBase64
      | some modBytes =>
        .ok { N := bytesBE modBytes, E := goIntOfUint64 (goUint64 (bytesBE expBytes)) }

/-- `jsonWebKey.Oct` from `src/unnamed/part_001` (lines 14-31): require a
non-empty `k` and base64url-decode it with `RawURLEncoding`. -/
def JsonWebKey.Oct (j : JsonWebKey) : Except DecodeErr (List Nat) :=
  if j.K = "" then .error .missingAssets
  else
    match rawURLDecode j.K with
    | none => .error .badBase64
    | some bytes => .ok bytes

/-- `jsonWebKey.EdDSA` from `src/eddsa.go`: require a non-empty `x` and
base64url-decode it with `RawURLEncoding`. -/
def JsonWebKey.EdDSA (j : JsonWebKey) : Except DecodeErr (List Nat) :=
  if j.X = "" then .error .missingAssets
  else
    match rawURLDecode j.X with
    | none => .error .badBase64
    | some bytes => .ok bytes

/-- Prime modulus of NIST P-256. -/
def p256P : Nat := 2 ^ 256 - 2 ^ 224 + 2 ^ 192 + 2 ^ 96 - 1
/-- Weierstrass `b` coefficient of NIST P-256. -/
def p256B : Nat := 0x5ac635d8aa3a93e7b3ebbd55769886bc651d06b0cc53b0f63bce3c3e27d2604b
/-- Prime modulus of NIST P-384. -/
def p384P : Nat := 2 ^ 384 - 2 ^ 128 - 2 ^ 96 + 2 ^ 32 - 1
/-- Weierstrass `b` coefficient of NIST P-384. -/
def p384B : Nat :=
  0xb3312fa7e23ee7e4988e056be3f82d19181d9c6efe8141120314088f5013875ac656398d8a2ed19d2a85c8edd3ec2aef
/-- Prime modulus of NIST P-521. -/
def p521P : Nat := 2 ^ 521 - 1
/-- Weierstrass `b` coefficient of NIST P-521. -/
def p521B : Nat :=
  0x51953eb9618e1c9a1f929a21a0b68540eea2da725b99b315f3b8b489918ef109e156193951ec7e937b1652c0bd3bb1bf073573df883d2c34f1ef451fd46b503f00

/-- Whether `(x, y)` lies on the short-Weierstrass curve
`y^2 = x^3 - 3x + b` over `GF(p)` (Go's `Curve.IsOnCurve`, which also
requires the coordinates to be reduced modulo `p`). -/
def onCurve (p b x y : Nat) : Bool :=
  x < p && y < p && (y * y) % p = (x * x * x + (p - 3) * x + b) % p

/-- Modelled from the spec: the ECDSA decoder `jsonWebKey.ECDSA`. The
`ecdsa.go` source file is absent from the snapshot (only its callers in
`NewJSON` and its tests are present). Per the spec, section 4.1: require
`crv` in P-256/P-384/P-521 (else `UnsupportedCurve`), non-empty `x` and
`y` (else `MissingAssets`), decode both as base64url big-endian unsigned
integers, and validate that the point lies on the named curve (else
`InvalidKey`). -/
def JsonWebKey.ECDSA (j : JsonWebKey) : Except DecodeErr EcdsaPublicKey :=
  let params : Option (Nat × Nat) :=
    if j.Curve = "P-256" then some (p256P, p256B)
    else if j.Curve = "P-384" then some (p384P, p384B)
    else if j.Curve = "P-521" then some (p521P, p521B)
    else none
  match params with
  | none => .error .unsupportedCurve
  | some (p, b) =>
    if j.X = "" ∨ j.Y = "" then .error .missingAssets
    else
      match rawURLDecode j.X with
      | none => .error .badBase64
      | some xBytes =>
        match rawURLDecode j.Y with
        | none => .error .badBase64
        | some yBytes =>
          if onCurve p b (bytesBE xBytes) (bytesBE yBytes) then
            .ok { Curve := j.Curve, X := bytesBE xBytes, Y := bytesBE yBytes }
          else .error .invalidKey

/-! ## `NewJSON`: building the `kid -> key` map (`src/jwks.go`, lines 360-402)

The Go map `map[string]interface{}` is modelled as a function
`String → Option KeyInter`; Go map assignment is pointwise update, so a
later entry with the same `kid` overwrites an earlier one. -/

/-- The `kid -> key` mapping. -/
abbrev KeyMap : Type := String → Option KeyInter

/-- The empty map. -/
def KeyMap.empty : KeyMap := fun _ => none

/-- Go map assignment `m[kid] = v`. -/
def KeyMap.insert (m : KeyMap) (kid : String) (v : KeyInter) : KeyMap :=
  fun k => if k = kid then some v else m k

/-- The body of `NewJSON`'s `switch key.Type`: dispatch on `kty` and decode;
`none` when the entry must be silently skipped (unknown `kty` or a decoder
error, every `case` turns its error into `continue`). -/
def decodeEntry (j : JsonWebKey) : Option KeyInter :=
  if j.Kty = "EC" then
    match j.ECDSA with
    | .ok pub => some (.ec pub)
    | .error _ => none
  else if j.Kty = "OKP" then
    match j.EdDSA with
    | .ok pub => some (.okp pub)
    | .error _ => none
  else if j.Kty = "oct" then
    match j.Oct with
    | .ok bytes => some (.oct bytes)
    | .error _ => none
  else if j.Kty = "RSA" then
    match j.RSA with
    | .ok pub => some (.rsa pub)
    | .error _ => none
  else none

/-- `NewJSON`'s loop over `rawKS.Keys`: insert every successfully decoded
entry under its `kid`, skipping the rest. -/
def buildKeys (entries : List JsonWebKey) : KeyMap :=
  entries.foldl
    (fun m j =>
      match decodeEntry j with
      | some v => m.insert j.ID v
      | none => m)
    KeyMap.empty

/-- Error of the JSON envelope parse (Go's `encoding/json.Unmarshal`,
an external collaborator; only its success/failure and its typed result
matter to this code). -/
inductive JsonErr where
  | invalidJSON
deriving DecidableEq, Repr

/-- `NewJSON` (`src/jwks.go`): its input is the result of unmarshalling
the envelope into `rawJWKS` (done by the external `encoding/json`); on
envelope failure the error is returned, otherwise the key map is built
and `nil` error returned — entry-level failures are never surfaced. -/
def newJSON (envelope : Except JsonErr (List JsonWebKey)) : Except JsonErr KeyMap :=
  match envelope with
  | .error e => .error e
  | .ok entries => .ok (buildKeys entries)

/-- The specification's reading of the parser result (§4.2 of the spec):
the map binds `kid` to the decoded form of the *last* entry in array order
that carries this `kid` and decodes successfully; entries that fail
decoding are skipped. Stated from the spec's words, to be compared with
`buildKeys`. -/
def specKeyFor (entries : List JsonWebKey) (kid : String) : Option KeyInter :=
  match entries.reverse.find? (fun j => j.ID = kid && (decodeEntry j).isSome) with
  | none => none
  | some j => decodeEntry j

/-! ## `JWKS.refresh` (`src/get.go`, lines 161-229)

The HTTP fetch itself is external; the pure core of `refresh` consumes the
fetched body bytes. The JSON envelope parse is the external
`encoding/json.Unmarshal`, passed in as a function `parse` from body bytes
to a typed result (the same body always parses to the same result, since
`parse` is a function). The store fields touched by `refresh` are `raw`,
`keys`, `givenKeys` and `givenKIDOverride`. -/

/-- A caller-supplied key (`GivenKey` of `src/given.go`): the decoded key
material stored in its `inter` field. -/
structure GivenKey where
  inter : KeyInter
deriving DecidableEq, Repr

/-- The store state touched by `refresh`: the key map, the last raw
payload, and the given-key configuration. -/
structure StoreState where
  keys : KeyMap
  raw : List Nat
  givenKeys : List (String × GivenKey)
  givenKIDOverride : Bool

/-- The given-key merge loop at the end of `refresh` (`src/get.go`, lines
211-226): for each `(kid, key)` of `givenKeys`, skip when override is off
and the `kid` is already present, otherwise write `key.inter`. The
presence check reads the map as already updated by earlier iterations,
exactly as the Go loop reads `j.keys`. -/
def applyGiven (override : Bool) (gs : List (String × GivenKey)) (m : KeyMap) : KeyMap :=
  gs.foldl
    (fun m' kv =>
      if ¬override ∧ (m' kv.1).isSome then m'
      else m'.insert kv.1 kv.2.inter)
    m

/-- Outcome of one `refresh` call: the store afterwards, the returned
error (`none` is Go's `nil`), and whether the key map was rebuilt. -/
structure RefreshResult where
  store : StoreState
  errored : Option JsonErr
  rebuilt : Bool

/-- One `refresh` cycle on a successfully fetched `body`
(`src/get.go`, lines 192-228): if the body is non-empty and byte-equal to
`j.raw`, return `nil` immediately; otherwise store the body in `j.raw`,
parse it (returning the parse error if any), rebuild the key map with
`NewJSON`'s loop and re-apply the given keys. -/
def refreshModel (parse : List Nat → Except JsonErr (List JsonWebKey))
    (s : StoreState) (body : List Nat) : RefreshResult :=
  if body ≠ [] ∧ body = s.raw then
    { store := s, errored := none, rebuilt := false }
  else
    match parse body with
    | .error e => { store := { s with raw := body }, errored := some e, rebuilt := false }
    | .ok entries =>
      { store := { s with
          raw := body
          keys := applyGiven s.givenKIDOverride s.givenKeys (buildKeys entries) }
        errored := none
        rebuilt := true }

/-- `n` consecutive refresh cycles all served the same `body`: returns the
final store, the number of key-map rebuilds, and whether every cycle
returned `nil`. -/
def iterRefresh (parse : List Nat → Except JsonErr (List JsonWebKey))
    (body : List Nat) : Nat → StoreState → StoreState × Nat × Bool
  | 0, s => (s, 0, true)
  | n + 1, s =>
    let r := refreshModel parse s body
    let rest := iterRefresh parse body n r.store
    (rest.1, (if r.rebuilt then 1 else 0) + rest.2.1, r.errored.isNone && rest.2.2)

/-! ## The public resolver `keyfunc.Keyfunc` (`src/keyfunc.go`, lines 68-106)

`token.Header` is a `map[string]any`; a header field can be absent,
present as a string, or present as a non-string value (the two type
assertions `.(string)` distinguish these). The storage read
`k.storage.KeyRead(ctx, kid)` is modelled as a map from `kid` to the
stored JWK (with its marshal metadata `ALG` and `USE`); an absent `kid`
is the storage's not-found error. -/

/-- A JWT header field value: a string or some non-string JSON value. -/
inductive HeaderVal where
  | str (s : String)
  | nonstr
deriving DecidableEq, Repr

/-- The two header fields `Keyfunc` reads, each possibly absent. -/
structure TokenHeader where
  kid : Option HeaderVal
  alg : Option HeaderVal
deriving DecidableEq, Repr

/-- A JWK held in the `jwkset` storage: its metadata `ALG` (empty string
when unset) and `USE` (empty string when unset), and the key material
returned by `jwk.Key()`. -/
structure StoredJWK where
  ALG : String
  USE : String
  key : KeyInter
deriving DecidableEq, Repr

/-- The `keyfunc` struct configuration: the storage and the `use`
whitelist. -/
structure KeyfuncConfig where
  storage : String → Option StoredJWK
  useWhitelist : List String

/-- The distinct error exits of `Keyfunc`. -/
inductive KeyfuncErr where
  | missingKID        -- no `kid` in the JWT header
  | nonStringKID      -- `kid` present but not a string
  | missingALG        -- no string `alg` in the JWT header
  | storageReadErr    -- `storage.KeyRead` failed (kid not found)
  | algMismatch       -- JWK `alg` set and different from the token's
  | useMismatch       -- whitelist configured and JWK `use` not in it
deriving DecidableEq, Repr

/-- `keyfunc.Keyfunc` (`src/keyfunc.go`, lines 68-106; the same function
appears in `src/unnamed/part_000`, lines 65-103): extract the `kid` and
`alg` header strings, read the JWK from storage, reject on an `alg`
mismatch, reject when a non-empty `use` whitelist does not contain the
JWK's `use`, and otherwise return the key. -/
def keyfuncResolve (cfg : KeyfuncConfig) (tok : TokenHeader) : Except KeyfuncErr KeyInter :=
  match tok.kid with
  | none => .error .missingKID
  | some .nonstr => .error .nonStringKID
  | some (.str kid) =>
    match tok.alg with
    | some (.str alg) =>
      match cfg.storage kid with
      | none => .error .storageReadErr
      | some jwk =>
        if jwk.ALG ≠ "" ∧ jwk.ALG ≠ alg then .error .algMismatch
        else if cfg.useWhitelist ≠ [] ∧ ¬ jwk.USE ∈ cfg.useWhitelist then
          .error .useMismatch
        else .ok jwk.key
    | _ => .error .missingALG

/-! ## `JWKS.getKey` (`src/jwks.go`)

Two generations of `getKey` are in the snapshot.

The channel-based version (lines 437-482) misses in the map, then runs a
`select` over the coordinator context's `Done` channel, a non-blocking
send into the single-slot `refreshRequests` channel, and a `default`
case. Go's `select` takes the `default` branch only when no other case is
ready, and picks uniformly among ready cases otherwise; the only
nondeterminism is when the context is already cancelled, which the
`pickCtxDone` oracle resolves. The naked `return` in the `Done` case
returns the zero values: a nil key AND a nil error.

The synchronous version (lines 85-119) calls `refresh()` inline; a refresh
error is passed to the configured handler when one is set, and in every
case the function returns either the found key with a nil error or
`ErrKIDNotFound` — the refresh error value itself is never returned. -/

/-- Inputs of one channel-based `getKey` call: the map before, the
configuration flag, whether the coordinator context is already cancelled,
whether the single request slot is free, the map re-read after waiting on
the completion handle, and the `select` oracle used only when the
cancelled `Done` case races another ready case. -/
structure GetKeyEnv where
  keysBefore : KeyMap
  refreshUnknownKID : Bool
  ctxDone : Bool
  slotFree : Bool
  keysAfter : KeyMap
  pickCtxDone : Bool

/-- What a `getKey` call returns: `(key, nil)`, `(nil, ErrKIDNotFound)`,
or — via the naked `return` in the `ctx.Done()` select case — the zero
values `(nil, nil)`. -/
inductive GetKeyOutcome where
  | found (k : KeyInter)  -- (jsonKey, nil)
  | kidNotFound           -- (nil, ErrKIDNotFound)
  | nilNil                -- (nil, nil): naked return in the Done case
deriving DecidableEq, Repr

/-- The channel-based `JWKS.getKey` (`src/jwks.go`, lines 437-482). -/
def getKeyChan (env : GetKeyEnv) (kid : String) : GetKeyOutcome :=
  match env.keysBefore kid with
  | some k => .found k
  | none =>
    if env.refreshUnknownKID then
      -- select over ctx.Done / send / default
      if env.ctxDone ∧ (¬env.slotFree ∨ env.pickCtxDone) then .nilNil
      else if ¬env.slotFree then .kidNotFound
      else
        -- enqueued; wait on the completion handle, then re-read
        match env.keysAfter kid with
        | some k => .found k
        | none => .kidNotFound
    else .kidNotFound

/-- Inputs of one synchronous `getKey` call (`src/jwks.go`, lines 85-119):
the map before, the configuration flag, the outcome of the inline
`refresh()` call (`none` meaning a nil error), whether a refresh error
handler is configured, and the map after the refresh. -/
structure GetKeySyncEnv where
  keysBefore : KeyMap
  refreshUnknownKID : Bool
  refreshErrored : Option JsonErr
  hasErrorHandler : Bool
  keysAfter : KeyMap

/-- The error value a synchronous `getKey` call could conceivably return:
either `ErrKIDNotFound` or some refresh (HTTP / parse) error. -/
inductive GetKeyErr where
  | kidNotFound
  | refreshFailure (e : JsonErr)
deriving DecidableEq, Repr

/-- The synchronous `JWKS.getKey` (`src/jwks.go`, lines 85-119). Returns
the Go pair `(jsonKey, err)` together with the list of errors passed to
the refresh error handler. A failed refresh is handed to the handler when
one is configured; with no handler the captured `err` is simply never
used again — both `return` statements supply explicit values. -/
def getKeySync (env : GetKeySyncEnv) (kid : String) :
    (Option KeyInter × Option GetKeyErr) × List JsonErr :=
  match env.keysBefore kid with
  | some k => ((some k, none), [])
  | none =>
    if env.refreshUnknownKID then
      let handled : List JsonErr :=
        match env.refreshErrored with
        | some e => if env.hasErrorHandler then [e] else []
        | none => []
      match env.keysAfter kid with
      | some k => ((some k, none), handled)
      | none => ((none, some .kidNotFound), handled)
    else ((none, some .kidNotFound), [])

/-! ## The refresh coordinator (`src/get.go`, lines 65-158)

`backgroundRefresh` is an event loop. Its shared data (`lastRefresh`,
`queueOnce`) are guarded by `refreshMux`, so the handler body for one
dequeued request, the deferred goroutine's read of `lastRefresh`, and the
deferred goroutine's refresh each execute as one atomic critical section;
the model makes each of them one step. Times are integers; the clock may
advance between any two steps, which also covers the wall time a refresh
itself consumes (a refresh whose rate-limit check passed at `t1` and that
completed at `t2 ≥ t1` corresponds to a trace that ticks to `t2` first,
where the check still passes). Context cancellation stops the loop and
the deferred goroutine, i.e. truncates a trace, so safety properties over
all reachable states cover cancelled runs.

A timer event only performs a non-blocking enqueue of a no-op handle;
dequeued timer and demand requests are processed identically, so the
model's request steps cover both. -/

/-- Phases of the deferred (rate-limited) refresh goroutine: `none` means
`queueOnce` is unarmed; `some none` is a spawned goroutine that has not
yet read `lastRefresh`; `some (some w)` is a goroutine sleeping until
wall-clock `w = lastRefresh + refreshRateLimit` as read under the mutex. -/
abbrev DeferredPhase : Type := Option (Option Int)

/-- The coordinator state: the wall clock, `lastRefresh`, the deferred
goroutine phase, the list of completed-refresh times (most recent first),
and the number of completion handles signalled immediately (without a
refresh) on rate-limited requests. -/
structure CoordState where
  time : Int
  lastRefresh : Int
  deferredTask : DeferredPhase
  completions : List Int
  signals : Nat

/-- Labels of the coordinator's atomic steps. -/
inductive CoordLabel where
  | tick (d : Int)
  | reqLimited
  | reqRefresh
  | deferRead
  | deferFire
deriving DecidableEq, Repr

/-- Initial coordinator state at time `t0` with rate limit `L`:
`lastRefresh = time.Now().Add(-j.refreshRateLimit)` (`src/get.go`,
line 72), nothing queued, nothing completed. -/
def coordInit (L t0 : Int) : CoordState :=
  { time := t0, lastRefresh := t0 - L, deferredTask := none
    completions := [], signals := 0 }

/-- One atomic step of `backgroundRefresh` with rate limit `L > 0`
(`src/get.go`, lines 99-151):

* `tick` — wall time advances;
* `reqLimited` — a request is dequeued while `now < lastRefresh + L`:
  the caller's handle is cancelled immediately (no refresh) and, only if
  `queueOnce` is unarmed, a deferred goroutine is spawned;
* `reqRefresh` — a request is dequeued while `now ≥ lastRefresh + L`:
  refresh synchronously, set `lastRefresh = time.Now()`, signal the
  handle;
* `deferRead` — the spawned goroutine computes its wake time
  `lastRefresh + L` under the mutex;
* `deferFire` — the sleeping goroutine, at any time past its wake time,
  refreshes, sets `lastRefresh = time.Now()` and re-arms `queueOnce`. -/
inductive CoordStep (L : Int) : CoordLabel → CoordState → CoordState → Prop
  | tick (s : CoordState) (d : Int) (h : 0 ≤ d) :
      CoordStep L (.tick d) s { s with time := s.time + d }
  | reqLimited (s : CoordState) (h : s.time < s.lastRefresh + L) :
      CoordStep L .reqLimited s
        { s with
            signals := s.signals + 1
            deferredTask := if s.deferredTask = none then some none else s.deferredTask }
  | reqRefresh (s : CoordState) (h : s.lastRefresh + L ≤ s.time) :
      CoordStep L .reqRefresh s
        { s with completions := s.time :: s.completions, lastRefresh := s.time }
  | deferRead (s : CoordState) (h : s.deferredTask = some none) :
      CoordStep L .deferRead s
        { s with deferredTask := some (some (s.lastRefresh + L)) }
  | deferFire (s : CoordState) (w : Int) (h : s.deferredTask = some (some w))
      (hw : w ≤ s.time) :
      CoordStep L .deferFire s
        { s with
            completions := s.time :: s.completions
            lastRefresh := s.time
            deferredTask := none }

/-- Reachability from the initial state by coordinator steps. -/
def CoordReach (L t0 : Int) (s : CoordState) : Prop :=
  Relation.ReflTransGen (fun a b => ∃ l, CoordStep L l a b) (coordInit L t0) s

/-- Number of completed refreshes inside the wall-clock window
`[t, t + L)`. -/
def countWindow (t L : Int) (cs : List Int) : Nat :=
  cs.countP (fun c => decide (t ≤ c) && decide (c < t + L))

/-! ## Claim C1: `use = "enc"` keys and `Resolve`

The claim says a JWK with `use = "enc"` is never returned for *every*
configuration, including one with no `use` whitelist. In
`src/keyfunc.go` the `use` check runs only under `len(k.useWhitelist) > 0`,
so with no whitelist configured the `enc` key is returned; the repository's
own test `TestJWKS_UseNoWhitelistOverride` (`src/jwks_test.go`, lines
200-224) asserts that parsing with an `enc` key *succeeds* once the
whitelist is disabled, so this is intended behaviour and the claim is
amended to the whitelist-conditional statement. -/

/-- A stored JWK whose `use` is `"enc"`, with no `alg` restriction. -/
def encJWK : StoredJWK := { ALG := "", USE := "enc", key := .oct [1, 2, 3] }

/-- A storage holding only `encJWK`, under kid `"k1"`. -/
def encStorage : String → Option StoredJWK :=
  fun kid => if kid = "k1" then some encJWK else none

/-- A token header selecting kid `"k1"` with alg `"HS256"`. -/
def tokenK1 : TokenHeader := { kid := some (.str "k1"), alg := some (.str "HS256") }

/-- C1 counterexample: with no `use` whitelist configured, `Keyfunc`
returns the key of a JWK whose `use` is `"enc"` — it does not return an
error, contradicting the claim as stated. -/
theorem c1_counterexample :
    keyfuncResolve { storage := encStorage, useWhitelist := [] } tokenK1
      = .ok (.oct [1, 2, 3]) := by
  rfl

/-- C1 (amended): whenever a non-empty `use` whitelist is configured and
the JWK stored under the token's `kid` has a `use` value outside the
whitelist (in particular `use = "enc"` with a whitelist of `["sig"]`),
`Keyfunc` returns an error and never the key. With no whitelist the `use`
attribute is not checked at all. -/
theorem c1_use_whitelist_enforced (cfg : KeyfuncConfig) (tok : TokenHeader)
    (kid : String) (jwk : StoredJWK)
    (hkid : tok.kid = some (.str kid))
    (hjwk : cfg.storage kid = some jwk)
    (hwl : cfg.useWhitelist ≠ [])
    (huse : jwk.USE ∉ cfg.useWhitelist) :
    ∃ e, keyfuncResolve cfg tok = .error e := by
  cases halg : tok.alg with
  | none => exact ⟨.missingALG, by simp [keyfuncResolve, hkid, halg]⟩
  | some v =>
    cases v with
    | nonstr => exact ⟨.missingALG, by simp [keyfuncResolve, hkid, halg]⟩
    | str alg =>
      by_cases hmatch : jwk.ALG ≠ "" ∧ jwk.ALG ≠ alg
      · exact ⟨.algMismatch, by simp [keyfuncResolve, hkid, halg, hjwk, hmatch]⟩
      · exact ⟨.useMismatch,
          by simp [keyfuncResolve, hkid, halg, hjwk, hmatch, hwl, huse]⟩

/-- A configuration whitelisting only `"sig"`, over `encStorage`. -/
def sigOnlyCfg : KeyfuncConfig := { storage := encStorage, useWhitelist := ["sig"] }

/-- C1 witness: the amended theorem applied at a concrete configuration
with whitelist `["sig"]` and a stored `use = "enc"` JWK. -/
theorem c1_witness : ∃ e, keyfuncResolve sigOnlyCfg tokenK1 = .error e :=
  c1_use_whitelist_enforced sigOnlyCfg tokenK1 "k1" encJWK rfl rfl
    (by decide) (by decide)

/-! ## Claim C2: the unchanged-payload short-circuit

The short-circuit in `src/get.go` line 193 is
`len(jwksBytes) != 0 && bytes.Equal(jwksBytes, j.raw)`: an *empty* body
that byte-equals the stored raw payload (e.g. the very first refresh
against a server answering an empty body, where `j.raw` is still nil)
does **not** short-circuit — it falls through to `NewJSON`, whose JSON
envelope parse of an empty input fails, so `refresh` returns an error
rather than success. The repository's own `TestInvalidServer`
(`src/jwks_test.go`, lines 46-71) asserts exactly this failure. The claim
is amended by restricting it to non-empty bodies. -/

/-- An envelope parse with `encoding/json`'s behaviour on the empty
input: `json.Unmarshal` of zero bytes always fails (`unexpected end of
JSON input`); any other body is taken to parse to an empty key list. -/
def emptyParse : List Nat → Except JsonErr (List JsonWebKey) :=
  fun body => if body = [] then .error .invalidJSON else .ok []

/-- A store that has never stored a payload: `raw` is nil. -/
def freshStore : StoreState :=
  { keys := KeyMap.empty, raw := [], givenKeys := [], givenKIDOverride := false }

/-- C2 counterexample: a refresh cycle whose fetched body (empty) is
byte-for-byte equal to the store's stored raw payload (also empty), yet
`refresh` returns an error instead of success — the short-circuit
requires a non-empty body. -/
theorem c2_counterexample :
    ([] : List Nat) = freshStore.raw ∧
    (refreshModel emptyParse freshStore []).errored = some .invalidJSON :=
  ⟨rfl, rfl⟩

/-- A successful refresh that served the same non-empty body leaves the
store literally fixed, so iterating it changes nothing and rebuilds
nothing. -/
theorem iterRefresh_fixed (parse : List Nat → Except JsonErr (List JsonWebKey))
    (body : List Nat) (hne : body ≠ []) :
    ∀ (n : Nat) (s : StoreState), s.raw = body →
      iterRefresh parse body n s = (s, 0, true) := by
  intro n
  induction n with
  | zero => intro s _; rfl
  | succ n ih =>
    intro s hraw
    have hr : refreshModel parse s body = ⟨s, none, false⟩ := by
      simp [refreshModel, hne, hraw]
    simp [iterRefresh, hr, ih s hraw]

/-- After any successful refresh of a non-empty body, the stored raw
payload equals that body, whichever branch was taken. -/
theorem iterRefresh_rebuilds_le_one
    (parse : List Nat → Except JsonErr (List JsonWebKey))
    (body : List Nat) (hne : body ≠ []) :
    ∀ (n : Nat) (s : StoreState), (iterRefresh parse body n s).2.2 = true →
      (iterRefresh parse body n s).2.1 ≤ 1 := by
  intro n
  induction n with
  | zero => intro s _; exact Nat.zero_le 1
  | succ n ih =>
    intro s hsucc
    by_cases hsc : body = s.raw
    · have hfix := iterRefresh_fixed parse body hne (n + 1) s hsc.symm
      simp [hfix]
    · cases hp : parse body with
      | error e =>
        exfalso
        have hr : refreshModel parse s body =
            ⟨{ s with raw := body }, some e, false⟩ := by
          simp [refreshModel, hp, hsc]
        simp [iterRefresh, hr] at hsucc
      | ok entries =>
        have hr : refreshModel parse s body =
            ⟨{ s with
                raw := body
                keys := applyGiven s.givenKIDOverride s.givenKeys (buildKeys entries) },
              none, true⟩ := by
          simp [refreshModel, hp, hsc]
        have hfix := iterRefresh_fixed parse body hne n
          { s with
              raw := body
              keys := applyGiven s.givenKIDOverride s.givenKeys (buildKeys entries) }
          rfl
        simp [iterRefresh, hr, hfix]

/-- C2 (amended): for every refresh cycle in which the fetched body is
**non-empty** and byte-for-byte equal to the store's last stored raw
payload, `refresh` returns success and leaves the whole store — in
particular the `kid -> key` map and every key object in it — unchanged;
consequently after `N` consecutive successful refreshes serving identical
non-empty payload bytes the key map has been rebuilt at most once. -/
theorem c2_unchanged_short_circuit :
    (∀ (parse : List Nat → Except JsonErr (List JsonWebKey))
       (s : StoreState) (body : List Nat), body ≠ [] → body = s.raw →
       refreshModel parse s body = ⟨s, none, false⟩) ∧
    (∀ (parse : List Nat → Except JsonErr (List JsonWebKey))
       (body : List Nat) (n : Nat) (s : StoreState), body ≠ [] →
       (iterRefresh parse body n s).2.2 = true →
       (iterRefresh parse body n s).2.1 ≤ 1) := by
  refine ⟨?_, ?_⟩
  · intro parse s body hne hraw
    subst hraw
    simp [refreshModel, hne]
  · intro parse body n s hne h
    exact iterRefresh_rebuilds_le_one parse body hne n s h

/-- A store whose stored raw payload is the one-byte body `[1]`. -/
def oneStore : StoreState :=
  { keys := KeyMap.empty, raw := [1], givenKeys := [], givenKIDOverride := false }

/-- C2 witness: the amended short-circuit applied to a concrete store
whose raw payload equals the concrete non-empty body `[1]`. -/
theorem c2_witness :
    refreshModel emptyParse oneStore [1] = ⟨oneStore, none, false⟩ ∧
    (iterRefresh emptyParse [1] 3 oneStore).2.1 ≤ 1 :=
  ⟨c2_unchanged_short_circuit.1 emptyParse oneStore [1] (by decide) rfl,
   c2_unchanged_short_circuit.2 emptyParse [1] 3 oneStore (by decide) rfl⟩

/-! ## Claim C3: the given-key merge

`refresh` rebuilds the map from the remote payload and then walks the
given keys, writing each unless override is off and the remote map
already has that `kid`. The kids of a Go map are pairwise distinct, hence
the `Nodup` hypothesis on the modelled association list. -/

/-- A `kid` not among the given keys is untouched by the merge loop. -/
theorem applyGiven_not_mem (o : Bool) :
    ∀ (gs : List (String × GivenKey)) (m : KeyMap) (kid : String),
      kid ∉ gs.map Prod.fst → applyGiven o gs m kid = m kid := by
  intro gs
  induction gs with
  | nil => intro m kid _; rfl
  | cons kv gs ih =>
    intro m kid h
    obtain ⟨k0, g0⟩ := kv
    simp only [List.map_cons, List.mem_cons, not_or] at h
    obtain ⟨hne, hnm⟩ := h
    have h1 : applyGiven o ((k0, g0) :: gs) m =
        applyGiven o gs (if ¬o ∧ ((m k0).isSome) then m else m.insert k0 g0.inter) := rfl
    rw [h1, ih _ kid hnm]
    by_cases hc : ¬o = true ∧ (m k0).isSome = true
    · rw [if_pos hc]
    · rw [if_neg hc]; simp [KeyMap.insert, hne]

/-- A `kid` occurring among the (pairwise distinct) given keys maps,
after the merge, to the given key when override is on or the `kid` was
absent, and otherwise keeps its previous binding. -/
theorem applyGiven_mem (o : Bool) :
    ∀ (gs : List (String × GivenKey)) (m : KeyMap) (kid : String) (g : GivenKey),
      (gs.map Prod.fst).Nodup → (kid, g) ∈ gs →
      applyGiven o gs m kid =
        if o = true ∨ m kid = none then some g.inter else m kid := by
  intro gs
  induction gs with
  | nil => intro m kid g _ hmem; cases hmem
  | cons kv gs ih =>
    intro m kid g hnd hmem
    obtain ⟨k0, g0⟩ := kv
    have h1 : applyGiven o ((k0, g0) :: gs) m =
        applyGiven o gs (if ¬o ∧ ((m k0).isSome) then m else m.insert k0 g0.inter) := rfl
    simp only [List.map_cons, List.nodup_cons] at hnd
    obtain ⟨hk0, hnd'⟩ := hnd
    rcases List.mem_cons.mp hmem with heq | hmem'
    · obtain ⟨hkid, hg⟩ := Prod.mk.injEq .. ▸ heq
      subst hkid; subst hg
      rw [h1, applyGiven_not_mem o gs _ kid hk0]
      cases o with
      | true => simp [KeyMap.insert]
      | false =>
        cases hmv : m kid with
        | none => simp [hmv, KeyMap.insert]
        | some v => simp [hmv, KeyMap.insert]
    · have hkne : kid ≠ k0 := by
        intro hcon
        exact hk0 (hcon ▸ List.mem_map_of_mem Prod.fst hmem')
      rw [h1, ih _ kid g hnd' hmem']
      have hm1 : (if ¬o = true ∧ ((m k0).isSome = true) then m
          else m.insert k0 g0.inter) kid = m kid := by
        by_cases hc : ¬o = true ∧ (m k0).isSome = true
        · rw [if_pos hc]
        · rw [if_neg hc]; simp [KeyMap.insert, hkne]
      rw [hm1]

/-- C3: on every refresh that replaces the key map (`rebuilt = true`,
remote payload parsed to `entries`), the given-key merge holds: a given
`(kid, gKey)` ends bound to `gKey` when `givenOverride` is on or `kid` is
absent from the freshly parsed remote map, and keeps the remote key
otherwise; with `givenOverride` on, lookup of a given `kid` always yields
the given key regardless of remote content; non-given kids are exactly
the remote map. -/
theorem c3_given_key_merge
    (parse : List Nat → Except JsonErr (List JsonWebKey))
    (s : StoreState) (body : List Nat) (entries : List JsonWebKey)
    (hp : parse body = .ok entries)
    (hrb : (refreshModel parse s body).rebuilt = true)
    (hnd : (s.givenKeys.map Prod.fst).Nodup) :
    (∀ kid g, (kid, g) ∈ s.givenKeys →
       (refreshModel parse s body).store.keys kid =
         if s.givenKIDOverride = true ∨ buildKeys entries kid = none
         then some g.inter else buildKeys entries kid) ∧
    (∀ kid g, (kid, g) ∈ s.givenKeys → s.givenKIDOverride = true →
       (refreshModel parse s body).store.keys kid = some g.inter) ∧
    (∀ kid, kid ∉ s.givenKeys.map Prod.fst →
       (refreshModel parse s body).store.keys kid = buildKeys entries kid) := by
  by_cases hsc : body ≠ [] ∧ body = s.raw
  · exfalso
    obtain ⟨hne', hb⟩ := hsc
    subst hb
    simp [refreshModel, hne'] at hrb
  · have hkeys : (refreshModel parse s body).store.keys =
        applyGiven s.givenKIDOverride s.givenKeys (buildKeys entries) := by
      simp [refreshModel, hsc, hp]
    refine ⟨?_, ?_, ?_⟩
    · intro kid g hmem
      rw [hkeys]
      exact applyGiven_mem s.givenKIDOverride s.givenKeys (buildKeys entries) kid g hnd hmem
    · intro kid g hmem ho
      rw [hkeys,
        applyGiven_mem s.givenKIDOverride s.givenKeys (buildKeys entries) kid g hnd hmem, ho]
      simp
    · intro kid hmem
      rw [hkeys]
      exact applyGiven_not_mem s.givenKIDOverride s.givenKeys (buildKeys entries) kid hmem

/-- An envelope parse producing no entries at all. -/
def noKeysParse : List Nat → Except JsonErr (List JsonWebKey) := fun _ => .ok []

/-- A store with one given key under kid `"gk"` and override enabled. -/
def givenStore : StoreState :=
  { keys := KeyMap.empty, raw := [], givenKeys := [("gk", ⟨KeyInter.oct [7]⟩)]
    givenKIDOverride := true }

/-- C3 witness: the merge theorem applied to a concrete store with one
given key, a fresh body and an empty remote payload: lookup of the given
kid yields the given key. -/
theorem c3_witness :
    (refreshModel noKeysParse givenStore [2]).store.keys "gk" = some (KeyInter.oct [7]) := by
  have h := c3_given_key_merge noKeysParse givenStore [2] [] rfl rfl (by decide)
  exact h.2.1 "gk" ⟨KeyInter.oct [7]⟩ (by decide) rfl

/-! ## Parser characterisation (claims C6 and C8)

`buildKeys` (the `NewJSON` loop) is characterised against `specKeyFor`
(the spec's words: last array entry with this `kid` that decodes
successfully; failing entries skipped). -/

/-- Unfolding `specKeyFor` over a cons cell: the tail (later entries, as
seen through the reversal) takes precedence, then the head contributes
its decode result if its `kid` matches. -/
theorem specKeyFor_cons (j : JsonWebKey) (rest : List JsonWebKey) (kid : String) :
    specKeyFor (j :: rest) kid =
      (specKeyFor rest kid).or (if j.ID = kid then decodeEntry j else none) := by
  unfold specKeyFor
  rw [List.reverse_cons, List.find?_append]
  cases hf : rest.reverse.find? (fun j' => j'.ID = kid && (decodeEntry j').isSome) with
  | some j' =>
    have hp := List.find?_some hf
    simp only [Bool.and_eq_true, decide_eq_true_eq] at hp
    obtain ⟨v, hv⟩ := Option.isSome_iff_exists.mp hp.2
    simp [Option.or, hv]
  | none =>
    rw [Option.none_or]
    by_cases hid : j.ID = kid
    · cases hde : decodeEntry j with
      | some v => simp [List.find?, hid, hde, Option.or]
      | none => simp [List.find?, hid, hde, Option.or]
    · simp [List.find?, hid, Option.or]

/-- `NewJSON`'s fold, started from any accumulator, looks up as the
spec's last-successful-entry rule with the accumulator as fallback. -/
theorem buildKeys_foldl (entries : List JsonWebKey) :
    ∀ (m : KeyMap) (kid : String),
      (entries.foldl
        (fun m' j =>
          match decodeEntry j with
          | some v => m'.insert j.ID v
          | none => m') m) kid
      = (specKeyFor entries kid).or (m kid) := by
  induction entries with
  | nil => intro m kid; simp [specKeyFor, Option.none_or]
  | cons j rest ih =>
    intro m kid
    rw [List.foldl_cons, ih, specKeyFor_cons]
    cases hs : specKeyFor rest kid with
    | some v => simp [Option.or]
    | none =>
      rw [Option.none_or, Option.none_or]
      cases hde : decodeEntry j with
      | none => simp [hde]
      | some v =>
        by_cases hid : j.ID = kid
        · simp [hde, hid, KeyMap.insert]
        · have : kid ≠ j.ID := fun hc => hid hc.symm
          simp [hde, hid, KeyMap.insert, this]

/-- The `NewJSON` key map equals the spec's per-`kid` characterisation. -/
theorem buildKeys_eq_specKeyFor (entries : List JsonWebKey) (kid : String) :
    buildKeys entries kid = specKeyFor entries kid := by
  have h := buildKeys_foldl entries KeyMap.empty kid
  rw [show (KeyMap.empty kid) = none from rfl] at h
  rw [buildKeys, h]
  cases specKeyFor entries kid <;> simp [Option.or]

/-- C6: parsing a JWK Set succeeds exactly when the envelope parses as
JSON — individual entries that fail to decode are silently skipped, never
surface an error, and are omitted from the map, whose content per `kid`
is the last successfully decoded entry carrying that `kid`. -/
theorem c6_parse_succeeds_iff_envelope :
    (∀ envelope : Except JsonErr (List JsonWebKey),
       (∃ m, newJSON envelope = .ok m) ↔ (∃ l, envelope = .ok l)) ∧
    (∀ (entries : List JsonWebKey) (kid : String),
       buildKeys entries kid = specKeyFor entries kid) := by
  constructor
  · intro envelope
    cases envelope with
    | error e =>
      constructor
      · rintro ⟨m, hm⟩; cases hm
      · rintro ⟨l, hl⟩; cases hl
    | ok l =>
      exact ⟨fun _ => ⟨l, rfl⟩, fun _ => ⟨buildKeys l, rfl⟩⟩
  · exact buildKeys_eq_specKeyFor

/-! ## Claim C8: empty-`kid` entries

The claim says entries with an empty `kid` are discarded. `NewJSON`
(`src/jwks.go`, lines 372-399) has no such filter: the assignment
`jwks.keys[key.ID] = keyInter` runs for the empty `kid` as for any other,
so a decodable entry with `kid = ""` lands in the map under `""`. -/

/-- An oct entry whose `kid` is the empty string and whose key material
decodes fine. -/
def emptyKidEntry : JsonWebKey := { ID := "", Kty := "oct", K := "AQAB" }

/-- C8 counterexample: the parser output for a set holding one decodable
entry with an empty `kid` *does* contain an entry under the empty `kid`,
contradicting the claimed discard. -/
theorem c8_counterexample :
    buildKeys [emptyKidEntry] "" = some (KeyInter.oct [1, 0, 1]) := by
  rfl

/-- C8 (amended): entries with an empty `kid` are **not** discarded; the
empty string is treated like any other `kid`: the map binds `""` to the
last successfully decoded entry whose `kid` is empty. -/
theorem c8_empty_kid_kept (entries : List JsonWebKey) :
    buildKeys entries "" = specKeyFor entries "" :=
  buildKeys_eq_specKeyFor entries ""

/-! ## Claims C5 and C9: `getKey`

The `select` in the channel-based `getKey` has a `case <-j.ctx.Done():
return` arm whose naked `return` yields the zero values — a nil key
together with a nil error. When the coordinator context is cancelled this
arm is ready, and (the slot being occupied) it is preferred over
`default`; when additionally the slot is free, Go picks uniformly between
the `Done` arm and the send. Both C5 and C9 are therefore false exactly
at the cancelled-context edge and are amended by excluding it. -/

/-- A `getKey` environment: unknown `kid`, cancelled context, occupied
request slot. -/
def envCancelledBusy : GetKeyEnv :=
  { keysBefore := KeyMap.empty, refreshUnknownKID := true, ctxDone := true
    slotFree := false, keysAfter := KeyMap.empty, pickCtxDone := false }

/-- C5 counterexample: with the single-slot queue already occupied but
the context cancelled, the lookup returns a nil key and nil error — not
`KIDNotFound` as the claim demands for every occupied-queue lookup. -/
theorem c5_counterexample :
    envCancelledBusy.slotFree = false ∧
    envCancelledBusy.refreshUnknownKID = true ∧
    envCancelledBusy.keysBefore "k1" = none ∧
    getKeyChan envCancelledBusy "k1" = .nilNil ∧
    GetKeyOutcome.nilNil ≠ GetKeyOutcome.kidNotFound := by
  refine ⟨rfl, rfl, rfl, rfl, ?_⟩
  intro hcon
  cases hcon

/-- C5 (amended): for every lookup of an absent `kid` with
`refreshUnknownKID` enabled, **provided the coordinator context is not
cancelled**: if the single-slot queue is occupied the lookup returns
`KIDNotFound` immediately; otherwise it enqueues, waits for the refresh
completion handle, re-reads the store, and returns the key if present and
`KIDNotFound` if still absent. (With a cancelled context the lookup may
instead return a nil key and nil error.) -/
theorem c5_unknown_kid_lookup (env : GetKeyEnv) (kid : String)
    (hmiss : env.keysBefore kid = none)
    (hcfg : env.refreshUnknownKID = true)
    (hctx : env.ctxDone = false) :
    (env.slotFree = false → getKeyChan env kid = .kidNotFound) ∧
    (env.slotFree = true →
      getKeyChan env kid =
        match env.keysAfter kid with
        | some k => .found k
        | none => .kidNotFound) := by
  constructor
  · intro hslot
    simp [getKeyChan, hmiss, hcfg, hctx, hslot]
  · intro hslot
    simp [getKeyChan, hmiss, hcfg, hctx, hslot]

/-- A live environment with an occupied slot and a store that still lacks
the kid after the wait. -/
def envLiveBusy : GetKeyEnv :=
  { keysBefore := KeyMap.empty, refreshUnknownKID := true, ctxDone := false
    slotFree := false, keysAfter := KeyMap.empty, pickCtxDone := false }

/-- C5 witness: the amended lookup behaviour applied at a concrete live
environment with an occupied request slot. -/
theorem c5_witness : getKeyChan envLiveBusy "k1" = .kidNotFound :=
  (c5_unknown_kid_lookup envLiveBusy "k1" rfl rfl rfl).1 rfl

/-- A `getKey` environment with cancelled context, free slot, and the
`select` picking the `Done` arm. -/
def envCancelledFree : GetKeyEnv :=
  { keysBefore := KeyMap.empty, refreshUnknownKID := true, ctxDone := true
    slotFree := true, keysAfter := KeyMap.empty, pickCtxDone := true }

/-- Discriminator for the two outcomes the C9 claim allows: a key with a
nil error, or `ErrKIDNotFound`. -/
def allowedByC9 : GetKeyOutcome → Bool
  | .found _ => true
  | .kidNotFound => true
  | .nilNil => false

/-- C9 counterexample: a `getKey` call that returns neither a key with a
nil error nor `ErrKIDNotFound` — the cancelled-context arm returns the
zero values `(nil, nil)`. -/
theorem c9_counterexample :
    getKeyChan envCancelledFree "k1" = .nilNil ∧
    allowedByC9 (getKeyChan envCancelledFree "k1") = false :=
  ⟨rfl, rfl⟩

/-- C9 (amended): as long as the coordinator context is not cancelled,
the channel-based `getKey` returns either a key with a nil error or
exactly `ErrKIDNotFound` (when cancelled it may return nil key and nil
error); and in the synchronous `getKey` a refresh failure is handed to
the configured refresh error handler (discarded when none is configured)
and is never the returned error value — the returned pair is always a key
with nil error or `(nil, ErrKIDNotFound)`. -/
theorem c9_getkey_error_contract :
    (∀ (env : GetKeyEnv) (kid : String), env.ctxDone = false →
       (∃ k, getKeyChan env kid = .found k) ∨ getKeyChan env kid = .kidNotFound) ∧
    (∀ (env : GetKeySyncEnv) (kid : String),
       ((∃ k, (getKeySync env kid).1 = (some k, none)) ∨
         (getKeySync env kid).1 = (none, some .kidNotFound)) ∧
       (∀ e, (getKeySync env kid).1.2 ≠ some (.refreshFailure e)) ∧
       (env.keysBefore kid = none → env.refreshUnknownKID = true →
         (getKeySync env kid).2 =
           match env.refreshErrored with
           | some e => if env.hasErrorHandler then [e] else []
           | none => [])) := by
  constructor
  · intro env kid hctx
    unfold getKeyChan
    cases hb : env.keysBefore kid with
    | some k => exact .inl ⟨k, rfl⟩
    | none =>
      cases hcfg : env.refreshUnknownKID with
      | false => simp
      | true =>
        simp only [hctx, if_true, Bool.false_eq_true, false_and, if_false]
        by_cases hslot : env.slotFree = true
        · simp only [hslot]
          cases ha : env.keysAfter kid with
          | some k => exact .inl ⟨k, by simp⟩
          | none => simp
        · simp [hslot]
  · intro env kid
    refine ⟨?_, ?_, ?_⟩
    · unfold getKeySync
      cases hb : env.keysBefore kid with
      | some k => exact .inl ⟨k, rfl⟩
      | none =>
        cases hcfg : env.refreshUnknownKID with
        | false => simp
        | true =>
          simp only [if_true]
          cases ha : env.keysAfter kid with
          | some k => exact .inl ⟨k, by simp⟩
          | none => simp
    · intro e
      unfold getKeySync
      cases hb : env.keysBefore kid with
      | some k => simp
      | none =>
        cases hcfg : env.refreshUnknownKID with
        | false => simp
        | true =>
          simp only [if_true]
          cases ha : env.keysAfter kid with
          | some k => simp
          | none => simp
    · intro hb hcfg
      simp [getKeySync, hb, hcfg]
      cases ha : env.keysAfter kid <;> simp

/-- A synchronous environment whose inline refresh failed with a handler
configured, and whose store still lacks the kid. -/
def envSyncFailed : GetKeySyncEnv :=
  { keysBefore := KeyMap.empty, refreshUnknownKID := true
    refreshErrored := some .invalidJSON, hasErrorHandler := true
    keysAfter := KeyMap.empty }

/-- C9 witness: the error contract applied at concrete environments —
a live channel lookup yields `KIDNotFound`, and a failed synchronous
refresh hands its error to the handler while the caller still sees
`(nil, ErrKIDNotFound)`. -/
theorem c9_witness :
    ((∃ k, getKeyChan envLiveBusy "k2" = .found k) ∨
      getKeyChan envLiveBusy "k2" = .kidNotFound) ∧
    (getKeySync envSyncFailed "k2").2 = [JsonErr.invalidJSON] :=
  ⟨(c9_getkey_error_contract.1 envLiveBusy "k2" rfl),
   by
    have h := (c9_getkey_error_contract.2 envSyncFailed "k2").2.2 rfl rfl
    simpa using h⟩

/-! ## Claim C7: base64url with trailing padding

All decoders in the snapshot call `base64.RawURLEncoding.DecodeString`
directly (`src/unnamed/part_001` for `k`, `src/given_test.go` lines
352-387 for `n`/`e`, `src/eddsa.go` for `x`). `RawURLEncoding` has no
padding character: a trailing `=` is outside its alphabet and the decode
fails. Yet the repository's own test `TestNonRFCPadding`
(`src/padding_test.go`) feeds `NewJSON` a JWK Set whose RSA `n` ends in
`==` and asserts that the key is parsed ("still supported"), so the code
contradicts its own test: a code bug relative to the claim. -/

/-- The RSA JWK of `src/padding_test.go` (non-RFC trailing `=` padding on
`n` and on the `kid`). `TestNonRFCPadding` expects `NewJSON` to keep this
key. -/
def paddedJWKSKey : JsonWebKey :=
  { Kty := "RSA"
    ID := "hw1T/zfqTKIT2DYbY1vweU1sLxT4SmhsgkCsHq00Ix8="
    Exponent := "AQAB"
    Modulus := "0P9Deg7S0HYuM7QdDOVpXycDErBfpPqxtxKURsNCyrtlopsbW3V-kXdQSj3_QXNaaJh9hTT9l46sl6e1x713ZMcBQI1-3xjfqSPK7POu21KIQG76eSt1A4xfOU7Wj_tfhaYuu_Axwr8RcmHCxNm0umqEIMjoyd1o30xBYkpeSCiaNnqpAldyzVVFox5WAkUaQo0GFmuf9RKddprIwtDSq4DpmlPV41Qe6NUBnQ5mZnWFsJohzpnI1YacpUUfdA7ZWbnEhg5ZKlb9hl80yPKQUBjVoeMZUuB1BDOyP-HBAQgmtCrCfsm26JX2bZtagl3xdy9yQNuIK9Ly75iSXIIrFw==" }

set_option maxRecDepth 100000 in
/-- C7 (code bug, evaluated at the failing input): the unpadded form of a
`k` value decodes, the same value with trailing `=` padding is rejected
(not byte-identical as claimed — the padded decode fails outright), the
oct decoder errors on the padded form, and the very JWK of the
repository's padding test is dropped by the parser dispatch. -/
theorem c7_padding_rejected :
    rawURLDecode "dGVzdA" = some [116, 101, 115, 116] ∧
    rawURLDecode "dGVzdA==" = none ∧
    JsonWebKey.Oct { K := "dGVzdA==" } = .error .badBase64 ∧
    decodeEntry paddedJWKSKey = none := by
  refine ⟨?_, ?_, ?_, ?_⟩ <;> rfl

/-! ## Claim C10: the RSA exponent conversion

`publicKey.E = int(big.NewInt(0).SetBytes(exponent).Uint64())`
(`src/given_test.go`, line 381): the big-endian value of the decoded `e`
bytes is reduced to its low 64 bits and reinterpreted as a signed 64-bit
machine int. -/

/-- C10: the decoded RSA exponent is the big-endian integer of the `e`
bytes reduced modulo `2 ^ 64` and cast to a signed 64-bit int; it equals
the encoded value exactly iff that value fits a signed 64-bit int
(`< 2 ^ 63`); and the decoder never rejects an oversized exponent — any
entry with non-empty, decodable `e` and `n` yields `ok` with exactly this
truncated exponent. -/
theorem c10_rsa_exponent_truncation :
    (∀ v : Nat, (goIntOfUint64 (goUint64 v) = (v : Int) ↔ v < 2 ^ 63)) ∧
    (∀ (j : JsonWebKey) (eb nb : List Nat),
       j.Exponent ≠ "" → j.Modulus ≠ "" →
       rawURLDecode j.Exponent = some eb → rawURLDecode j.Modulus = some nb →
       j.RSA = .ok { N := bytesBE nb, E := goIntOfUint64 (goUint64 (bytesBE eb)) }) := by
  constructor
  · intro v
    unfold goIntOfUint64 goUint64
    constructor
    · intro h
      by_contra hge
      push_neg at hge
      split at h <;> omega
    · intro h
      have hmod : v % 2 ^ 64 = v := Nat.mod_eq_of_lt (by omega)
      rw [hmod, if_pos h]
  · intro j eb nb he hn hde hdn
    simp [JsonWebKey.RSA, he, hn, hde, hdn]

/-- The 65537 (`AQAB`) exponent entry. -/
def aqabKey : JsonWebKey := { Kty := "RSA", ID := "r1", Exponent := "AQAB", Modulus := "AQAB" }

/-- C10 witness: the exponent contract applied at the standard exponent
65537 = `AQAB`, which fits a signed 64-bit int and round-trips exactly. -/
theorem c10_witness :
    (goIntOfUint64 (goUint64 65537) = (65537 : Int) ↔ 65537 < 2 ^ 63) ∧
    JsonWebKey.RSA aqabKey = .ok { N := 65537, E := 65537 } := by
  refine ⟨c10_rsa_exponent_truncation.1 65537, ?_⟩
  have h := c10_rsa_exponent_truncation.2 aqabKey [1, 0, 1] [1, 0, 1]
    (by decide) (by decide) rfl rfl
  rw [h]
  rfl

/-! ## Claim C4: rate limiting bounds completed refreshes

The inductive invariant below is maintained by every coordinator step:
completion times are listed most recent first and never exceed the clock,
`lastRefresh` is the most recent completion, completions two apart are at
least `L` apart, and a sleeping deferred goroutine's wake time dominates
the second most recent completion unless two refreshes already straddle a
full `L` gap. -/

/-- The coordinator's inductive invariant. -/
structure CoordInv (L t0 : Int) (s : CoordState) : Prop where
  pw : s.completions.Pairwise (fun a b => b ≤ a)
  timeUB : ∀ c ∈ s.completions, c ≤ s.time
  lastEq : s.lastRefresh = s.completions.headD (t0 - L)
  gap : ∀ i a b, s.completions.get? i = some a →
    s.completions.get? (i + 2) = some b → b + L ≤ a
  sleep : ∀ w, s.deferredTask = some (some w) →
    ∀ c1 c2, s.completions.get? 0 = some c1 → s.completions.get? 1 = some c2 →
      c2 + L ≤ w ∨ c2 + L ≤ c1

/-- The invariant holds initially. -/
theorem coordInv_init (L t0 : Int) : CoordInv L t0 (coordInit L t0) := by
  refine ⟨List.Pairwise.nil, ?_, rfl, ?_, ?_⟩
  · intro c hc; cases hc
  · intro i a b ha _; cases ha
  · intro w hw; cases hw

/-- Every coordinator step preserves the invariant. -/
theorem coordInv_step {L t0 : Int} {l : CoordLabel} {s s' : CoordState}
    (hinv : CoordInv L t0 s) (hstep : CoordStep L l s s') : CoordInv L t0 s' := by
  obtain ⟨pw, timeUB, lastEq, gap, sleep⟩ := hinv
  cases hstep with
  | tick s d hd =>
    refine ⟨pw, ?_, lastEq, gap, sleep⟩
    intro c hc
    have h1 := timeUB c hc
    show c ≤ s.time + d
    omega
  | reqLimited s h =>
    refine ⟨pw, timeUB, lastEq, gap, ?_⟩
    intro w hw c1 c2 h1 h2
    have hw2 : (if s.deferredTask = none then some none else s.deferredTask)
        = some (some w) := hw
    by_cases hd : s.deferredTask = none
    · rw [if_pos hd] at hw2; cases hw2
    · rw [if_neg hd] at hw2
      exact sleep w hw2 c1 c2 h1 h2
  | reqRefresh s h =>
    refine ⟨?_, ?_, rfl, ?_, ?_⟩
    · exact List.pairwise_cons.mpr ⟨fun c hc => timeUB c hc, pw⟩
    · intro c hc
      show c ≤ s.time
      rcases List.mem_cons.mp hc with hc0 | hcm
      · omega
      · exact timeUB c hcm
    · intro i a b ha hb
      cases i with
      | zero =>
        have ha2 : some s.time = some a := ha
        have ha3 : s.time = a := by injection ha2
        have hb2 : s.completions.get? 1 = some b := hb
        cases hcs : s.completions with
        | nil => rw [hcs] at hb2; cases hb2
        | cons c0 rest =>
          rw [hcs] at hb2
          have hb3 : rest.get? 0 = some b := hb2
          have hbmem : b ∈ rest := List.get?_mem hb3
          have hbc0 : b ≤ c0 := by
            rw [hcs] at pw
            exact List.rel_of_pairwise_cons pw hbmem
          have hlr : s.lastRefresh = c0 := by rw [lastEq, hcs]; rfl
          omega
      | succ i =>
        have ha2 : s.completions.get? i = some a := ha
        have hb2 : s.completions.get? (i + 2) = some b := hb
        exact gap i a b ha2 hb2
    · intro w hw c1 c2 h1 h2
      have hw2 : s.deferredTask = some (some w) := hw
      have h12 : some s.time = some c1 := h1
      have hc1 : s.time = c1 := by injection h12
      have h22 : s.completions.get? 0 = some c2 := h2
      cases hcs : s.completions with
      | nil => rw [hcs] at h22; cases h22
      | cons c0 rest =>
        rw [hcs] at h22
        have h23 : some c0 = some c2 := h22
        have hc2 : c0 = c2 := by injection h23
        have hlr : s.lastRefresh = c0 := by rw [lastEq, hcs]; rfl
        right
        omega
  | deferRead s h =>
    refine ⟨pw, timeUB, lastEq, gap, ?_⟩
    intro w hw c1 c2 h1 h2
    have hw2 : some (some (s.lastRefresh + L)) = some (some w) := hw
    have hw3 : s.lastRefresh + L = w := by
      injection hw2 with h1'
      injection h1' with h2'
    cases hcs : s.completions with
    | nil => rw [hcs] at h1; cases h1
    | cons c0 rest =>
      rw [hcs] at h1 h2
      have h13 : some c0 = some c1 := h1
      have hc1 : c0 = c1 := by injection h13
      have h23 : rest.get? 0 = some c2 := h2
      have hc2mem : c2 ∈ rest := List.get?_mem h23
      have hc21 : c2 ≤ c0 := by
        rw [hcs] at pw
        exact List.rel_of_pairwise_cons pw hc2mem
      have hlr : s.lastRefresh = c0 := by rw [lastEq, hcs]; rfl
      left
      omega
  | deferFire s w hdef hw =>
    refine ⟨?_, ?_, rfl, ?_, ?_⟩
    · exact List.pairwise_cons.mpr ⟨fun c hc => timeUB c hc, pw⟩
    · intro c hc
      show c ≤ s.time
      rcases List.mem_cons.mp hc with hc0 | hcm
      · omega
      · exact timeUB c hcm
    · intro i a b ha hb
      cases i with
      | zero =>
        have ha2 : some s.time = some a := ha
        have ha3 : s.time = a := by injection ha2
        have hb0 : s.completions.get? 1 = some b := hb
        cases hcs : s.completions with
        | nil => rw [hcs] at hb0; cases hb0
        | cons c0 rest =>
          have hget0 : s.completions.get? 0 = some c0 := by rw [hcs]; rfl
          have hsleep := sleep w hdef c0 b hget0 hb0
          have hc0time : c0 ≤ s.time :=
            timeUB c0 (by rw [hcs]; exact List.mem_cons_self c0 rest)
          rcases hsleep with hcase | hcase <;> omega
      | succ i =>
        have ha2 : s.completions.get? i = some a := ha
        have hb2 : s.completions.get? (i + 2) = some b := hb
        exact gap i a b ha2 hb2
    · intro w' hw' c1 c2 h1 h2
      have hcon : (none : DeferredPhase) = some (some w') := hw'
      cases hcon

/-- The invariant holds in every reachable coordinator state. -/
theorem coordInv_reachable {L t0 : Int} {s : CoordState} (h : CoordReach L t0 s) :
    CoordInv L t0 s := by
  induction h with
  | refl => exact coordInv_init L t0
  | tail _ hbc ih =>
    obtain ⟨l, hstep⟩ := hbc
    exact coordInv_step ih hstep

/-- A descending list whose entries two apart differ by at least `L` has
at most two entries in any half-open window of length `L`. -/
theorem countP_window_le_two (L : Int) :
    ∀ cs : List Int, cs.Pairwise (fun a b => b ≤ a) →
      (∀ i a b, cs.get? i = some a → cs.get? (i + 2) = some b → b + L ≤ a) →
      ∀ t, countWindow t L cs ≤ 2 := by
  intro cs
  induction cs with
  | nil => intro _ _ t; exact Nat.zero_le 2
  | cons a cs ih =>
    intro pw gap t
    have pw' := (List.pairwise_cons.mp pw).2
    have gap' : ∀ i a' b, cs.get? i = some a' → cs.get? (i + 2) = some b → b + L ≤ a' :=
      fun i a' b ha hb => gap (i + 1) a' b ha hb
    by_cases hwin : t ≤ a ∧ a < t + L
    · cases cs with
      | nil =>
        show List.countP _ [a] ≤ 2
        rw [List.countP_cons, List.countP_nil]
        split <;> omega
      | cons b rest =>
        have hrest0 : List.countP (fun c => decide (t ≤ c) && decide (c < t + L)) rest = 0 := by
          rw [List.countP_eq_zero]
          intro x hx
          cases rest with
          | nil => cases hx
          | cons r0 rest' =>
            have hr0 : r0 + L ≤ a := gap 0 a r0 rfl rfl
            have hxr0 : x ≤ r0 := by
              rcases List.mem_cons.mp hx with hx0 | hxmem
              · omega
              · have pwr : (r0 :: rest').Pairwise (fun a b => b ≤ a) :=
                  (List.pairwise_cons.mp (List.pairwise_cons.mp pw).2).2
                exact List.rel_of_pairwise_cons pwr hxmem
            have hxt : ¬ (t ≤ x) := by omega
            simp [hxt]
        show List.countP _ (a :: b :: rest) ≤ 2
        rw [List.countP_cons, List.countP_cons, hrest0]
        have h1 : (if (decide (t ≤ b) && decide (b < t + L)) = true then 1 else 0) ≤ 1 := by
          split <;> omega
        have h2 : (if (decide (t ≤ a) && decide (a < t + L)) = true then 1 else 0) ≤ 1 := by
          split <;> omega
        omega
    · have hpa : ¬ ((decide (t ≤ a) && decide (a < t + L)) = true) := by
        simpa [Bool.and_eq_true, decide_eq_true_eq] using hwin
      show List.countP _ (a :: cs) ≤ 2
      rw [List.countP_cons, if_neg hpa]
      have hle : List.countP (fun c => decide (t ≤ c) && decide (c < t + L)) cs ≤ 2 :=
        ih pw' gap' t
      show List.countP _ cs + 0 ≤ 2
      omega

/-- C4: with `refreshRateLimit = L > 0`, in every reachable coordinator
state at most 2 refreshes have completed inside any wall-clock window
`[t, t + L)`; moreover a request dequeued while rate-limited signals the
caller's completion handle immediately without any refresh completing,
and when a deferred refresh is already queued it queues nothing further
(coalescing). -/
theorem c4_rate_limit_window (L t0 : Int) (hL : 0 < L) (s : CoordState)
    (hreach : CoordReach L t0 s) :
    (∀ t : Int, countWindow t L s.completions ≤ 2) ∧
    (∀ s' : CoordState, CoordStep L .reqLimited s s' →
       s'.completions = s.completions ∧
       s'.signals = s.signals + 1 ∧
       (s.deferredTask ≠ none → s'.deferredTask = s.deferredTask)) := by
  have hinv := coordInv_reachable hreach
  constructor
  · intro t
    exact countP_window_le_two L s.completions hinv.pw hinv.gap t
  · intro s' hstep
    cases hstep with
    | reqLimited s h =>
      refine ⟨rfl, rfl, fun hd => ?_⟩
      show (if s.deferredTask = none then some none else s.deferredTask) = s.deferredTask
      rw [if_neg hd]

/-- The coordinator state after one synchronous refresh at time 0. -/
def coordAfterOne : CoordState :=
  { time := 0, lastRefresh := 0, deferredTask := none, completions := [0], signals := 0 }

/-- C4 witness: the window bound applied to a concrete reachable state —
the coordinator with rate limit 2 that has served one synchronous refresh
at time 0 (enabled because `lastRefresh` starts at `t0 - L`). -/
theorem c4_witness : countWindow 0 2 coordAfterOne.completions ≤ 2 :=
  (c4_rate_limit_window 2 0 (by decide) coordAfterOne
    (Relation.ReflTransGen.single
      ⟨.reqRefresh, CoordStep.reqRefresh (coordInit 2 0) (by decide)⟩)).1 0

end KeyfuncProof
